import Mathlib

/-!
Verification of the cmdchatgpt conversation core
(`src/cmdchatgpt/openai_util.py`, `src/cmdchatgpt/database.py`,
`src/cmdchatgpt/colors.py`).

The Python code is shallowly embedded:

* Python `dict`s (insertion ordered, unique keys) are association lists
  `List (String × JVal)`; `d[k] = v` is `dictInsert`, `a | b` is `dictMerge`,
  `dict` equality (`==`, key/value extensional) is `dictEqb`.
* JSON-representable Python values are the tree `JVal`.  `json.dumps` /
  `json.loads` form a faithful encode/decode pair on such trees, so
  serialization is modelled at the tree level (`JSONDumpVal`).
* A conversation (`class ChatOpenAI`) is the record of its three instance
  variables `args`, `messages`, `prompts_and_responses`.
* The remote OpenAI client (`openai_client.chat.completions.create`) is an
  external collaborator: it is passed in as a function
  `client : prompt-dict → Except String ChatResponse`; a Python exception is
  the `Except.error` case.  Mutating methods become state passing:
  each returns the new conversation together with the Python return value.
* The sqlite-backed `ChatDatabase` table (`name TEXT PRIMARY KEY, json TEXT`)
  is an association list of rows `name ↦ serialized conversation`.
* The rendering pipeline (`StrTerm` / `GetContentStrTerm`) is embedded over
  `List Char`; the two class-level regexes `code_regex` and `keyword_regex`
  are implemented as scanners (`scanMatch`, `kwSubF`) that follow the
  backtracking semantics of Python's `re` on exactly those two patterns.
  pygments highlighting (`GetCodeHighlighted`) is an external collaborator,
  passed in as a function `hl : lang → code → highlighted`.
-/

/-- Python `\s` on the characters that actually occur in terminal chat text
(the ASCII whitespace class used by `re`). -/
def isPySpace (c : Char) : Bool :=
  c = ' ' || c = '\t' || c = '\n' || c = '\r' || c = '\x0b' || c = '\x0c'

/-- The back-tick character (spelled via its code point). -/
def tick : Char := '\x60'

/-- Python `str.strip()`: drop whitespace from both ends. -/
def pyStrip (s : List Char) : List Char :=
  ((s.dropWhile isPySpace).reverse.dropWhile isPySpace).reverse

/-- `str.strip()` at `String` level. -/
def pyStripS (s : String) : String := ⟨pyStrip s.data⟩

/-- JSON-representable Python values (contents of `args`, archived prompts
and responses).  This is the image of `json.loads`. -/
inductive JVal where
  | str (s : String)
  | num (n : Int)
  | bool (b : Bool)
  | null
  | arr (elems : List JVal)
  | obj (fields : List (String × JVal))

mutual

/-- Python `==` on JSON values (structural equality; dict fields compared
in order here, which suffices because every dict this program builds is
used with a fixed field order). -/
def JVal.beq : JVal → JVal → Bool
  | .str a, .str b => a == b
  | .num a, .num b => a == b
  | .bool a, .bool b => a == b
  | .null, .null => true
  | .arr a, .arr b => JVal.beqList a b
  | .obj a, .obj b => JVal.beqFields a b
  | _, _ => false

/-- `JVal.beq` mapped over lists. -/
def JVal.beqList : List JVal → List JVal → Bool
  | [], [] => true
  | x :: xs, y :: ys => JVal.beq x y && JVal.beqList xs ys
  | _, _ => false

/-- `JVal.beq` mapped over key/value lists. -/
def JVal.beqFields : List (String × JVal) → List (String × JVal) → Bool
  | [], [] => true
  | x :: xs, y :: ys => (x.1 == y.1 && JVal.beq x.2 y.2) && JVal.beqFields xs ys
  | _, _ => false

end

/-- Python `d[k]` / `d.get(k)` on an insertion-ordered dict: the binding of
the first matching key. -/
def dictLookup (d : List (String × JVal)) (k : String) : Option JVal :=
  match d with
  | [] => none
  | p :: t => if p.1 = k then some p.2 else dictLookup t k

/-- Python `d[k] = v`: update the existing binding in place (keeping its
position) or append a new one. -/
def dictInsert (d : List (String × JVal)) (k : String) (v : JVal) :
    List (String × JVal) :=
  match d with
  | [] => [(k, v)]
  | p :: t => if p.1 = k then (k, v) :: t else p :: dictInsert t k v

/-- Python `a | b` on dicts: start from `a`, then assign every binding of
`b` in order (`b` wins key-by-key, new keys are appended). -/
def dictMerge (a b : List (String × JVal)) : List (String × JVal) :=
  b.foldl (fun acc p => dictInsert acc p.1 p.2) a

/-- The keys of a dict, in order. -/
def dictKeys (d : List (String × JVal)) : List String := d.map Prod.fst

/-- `JVal.beq` on optional values (used to compare lookup results). -/
def optBeq : Option JVal → Option JVal → Bool
  | some a, some b => JVal.beq a b
  | none, none => true
  | _, _ => false

/-- Python `==` on dicts: same key set, equal value at every key
(insertion order does not participate). -/
def dictEqb (a b : List (String × JVal)) : Bool :=
  a.all (fun p => optBeq (dictLookup b p.1) (some p.2)) &&
    b.all (fun p => optBeq (dictLookup a p.1) (some p.2))

/-- One conversation message: the dict `{'role': ..., 'content': ...}`. -/
structure Msg where
  role : String
  content : String
deriving DecidableEq, Repr

/-- The conversation class `ChatOpenAI` (aliased `Chat`): its three instance
variables.  `prompts_and_responses` entries are the two-element lists
`[new_prompt, response_dict]` appended by `_Send0`. -/
structure ChatOpenAI where
  args : List (String × JVal)
  messages : List Msg
  prompts_and_responses : List (List (String × JVal) × JVal)

/-- `ChatOpenAI.DEFAULT_ARGS`: the uncommented entries of the class-level
default argument dict. -/
def DEFAULT_ARGS : List (String × JVal) := [("model", JVal.str "gpt-4o")]

/-- `ChatOpenAI.__eq__`: conversations compare equal iff their `messages`
lists are equal; `args` and `prompts_and_responses` do not participate. -/
def chatEq (a b : ChatOpenAI) : Bool := a.messages == b.messages

/-- `ChatOpenAI.__bool__`: a conversation is truthy iff `messages` is
non-empty. -/
def chatBool (c : ChatOpenAI) : Bool := !c.messages.isEmpty

/-! ### Serialization (`JSONDump`) and deserialization (`Chat(**json.loads(...))`)

`JSONDump` is `json.dumps(self.__dict__)`; `__dict__` holds exactly
`args`, `messages`, `prompts_and_responses`, in that insertion order.
`json.dumps`/`json.loads` are a faithful encode/decode pair on
JSON-representable values, so the dump is modelled as the JSON tree the
loaded string parses back to. -/

/-- A message as it appears in the JSON dump. -/
def encodeMsg (m : Msg) : JVal := .obj [("role", .str m.role), ("content", .str m.content)]

/-- The `messages` list as it appears in the JSON dump. -/
def encodeMsgs (ms : List Msg) : JVal := .arr (ms.map encodeMsg)

/-- One `prompts_and_responses` entry `[new_prompt, response_dict]` as it
appears in the JSON dump (a two-element JSON array). -/
def encodeEntry (e : List (String × JVal) × JVal) : JVal := .arr [.obj e.1, e.2]

/-- The `prompts_and_responses` list as it appears in the JSON dump. -/
def encodeLog (l : List (List (String × JVal) × JVal)) : JVal := .arr (l.map encodeEntry)

/-- `ChatOpenAI.JSONDump` (as the JSON tree `json.loads` returns). -/
def JSONDumpVal (c : ChatOpenAI) : JVal :=
  .obj [("args", .obj c.args),
        ("messages", encodeMsgs c.messages),
        ("prompts_and_responses", encodeLog c.prompts_and_responses)]

/-- Reading a dumped message back into the message record; `none` models a
blob whose entry is not a `{'role','content'}` dict (`MalformedRecord`). -/
def decodeMsg : JVal → Option Msg
  | .obj l =>
    match dictLookup l "role", dictLookup l "content" with
    | some (.str r), some (.str ct) => some ⟨r, ct⟩
    | _, _ => none
  | _ => none

/-- Reading a dumped `messages` list back. -/
def decodeMsgs : JVal → Option (List Msg)
  | .arr xs => xs.mapM decodeMsg
  | _ => none

/-- Reading one dumped `prompts_and_responses` entry back. -/
def decodeEntry : JVal → Option (List (String × JVal) × JVal)
  | .arr [.obj p, r] => some (p, r)
  | _ => none

/-- Reading a dumped `prompts_and_responses` list back. -/
def decodeLog : JVal → Option (List (List (String × JVal) × JVal))
  | .arr xs => xs.mapM decodeEntry
  | _ => none

/-- Python `kwargs.pop(k, dflt)`: the value (or default) together with the
dict with that key removed. -/
def popKw (kwargs : List (String × JVal)) (k : String) (dflt : JVal) :
    JVal × List (String × JVal) :=
  match dictLookup kwargs k with
  | some v => (v, kwargs.filter (fun p => p.1 ≠ k))
  | none => (dflt, kwargs)

/-- `ChatOpenAI.__init__(**kwargs)` for the keyword-argument path (no
`user_content`, hence no initial network call):
`args = DEFAULT_ARGS | kwargs.pop('args', {})`,
`messages = kwargs.pop('messages', [])`,
`prompts_and_responses = kwargs.pop('prompts_and_responses', [])`,
then `args |= kwargs` with the remaining keys.
`none` models the constructor raising on a malformed blob. -/
def ChatOfKwargs (kwargs : List (String × JVal)) : Option ChatOpenAI :=
  let a1 := popKw kwargs "args" (.obj [])
  let a2 := popKw a1.2 "messages" (.arr [])
  let a3 := popKw a2.2 "prompts_and_responses" (.arr [])
  match a1.1 with
  | .obj argsL =>
    match decodeMsgs a2.1, decodeLog a3.1 with
    | some ms, some par =>
      some { args := dictMerge (dictMerge DEFAULT_ARGS argsL) a3.2,
             messages := ms,
             prompts_and_responses := par }
    | _, _ => none
  | _ => none

/-- `Chat(**json.loads(c.JSONDump()))`: serialize, then rebuild through the
constructor. -/
def RoundTrip (c : ChatOpenAI) : Option ChatOpenAI :=
  match JSONDumpVal c with
  | .obj kwargs => ChatOfKwargs kwargs
  | _ => none

/-! ### The send pipeline (`_Send0`, `Send`, `_Chat0`, `UserChat`, `SystemChat`)

`openai_client.chat.completions.create(**new_prompt)` is the external
Remote Completion Client; it is passed in as `client`.  A raised exception
is `Except.error` (the carried `String` stands for the exception object,
which the code re-raises unmodified). -/

/-- One entry of `response.choices`. -/
structure Choice where
  message : Msg
deriving DecidableEq, Repr

/-- `response.usage` token accounting. -/
structure Usage where
  prompt_tokens : Nat
  completion_tokens : Nat
  total_tokens : Nat
deriving DecidableEq, Repr

/-- The structured success result of the Remote Completion Client
(`openai.types.chat.chat_completion.ChatCompletion`, restricted to the
fields this program reads).  The assistant message of a choice is its
`role`/`content` pair: `Send` drops the `function_call` and `tool_calls`
fields before appending, so they are not modelled. -/
structure ChatResponse where
  choices : List Choice
  usage : Usage
deriving DecidableEq, Repr

/-- The Remote Completion Client capability. -/
def Client : Type := List (String × JVal) → Except String ChatResponse

/-- `json.loads(response.model_dump_json())`: the response as the JSON tree
archived in `prompts_and_responses`. -/
def encodeResponse (r : ChatResponse) : JVal :=
  .obj [("choices", .arr (r.choices.map (fun ch => .obj [("message", encodeMsg ch.message)]))),
        ("usage", .obj [("prompt_tokens", .num r.usage.prompt_tokens),
                        ("completion_tokens", .num r.usage.completion_tokens),
                        ("total_tokens", .num r.usage.total_tokens)])]

/-- The `new_prompt` built at the top of `_Send0`:
`copy.deepcopy(self.args) | kw`, then `new_prompt['messages'] =
copy.deepcopy(self.messages)`.  The deep copies make the archived prompt an
independent snapshot, which the embedding renders as the value of
`args`/`messages` at call time. -/
def buildPrompt (c : ChatOpenAI) (kw : List (String × JVal)) : List (String × JVal) :=
  dictInsert (dictMerge c.args kw) "messages" (encodeMsgs c.messages)

/-- `ChatOpenAI.pop()` with the default index `-1`: remove the last
message.  (The program only calls it right after an append, so the list is
never empty there.) -/
def chatPop (c : ChatOpenAI) : ChatOpenAI :=
  { c with messages := c.messages.dropLast }

/-- `ChatOpenAI._Send0`: build the snapshot prompt, call the client.  On
failure: optionally `self.pop()`, then re-raise the same exception.  On
success: append `[new_prompt, response_dict]` to `prompts_and_responses`
and return the raw response.  The state result is paired with the Python
return/raise. -/
def Send0 (client : Client) (remove_last_msg_on_fail : Bool)
    (kw : List (String × JVal)) (c : ChatOpenAI) :
    ChatOpenAI × Except String ChatResponse :=
  let new_prompt := buildPrompt c kw
  match client new_prompt with
  | .error e => (if remove_last_msg_on_fail then chatPop c else c, .error e)
  | .ok response =>
    ({ c with prompts_and_responses :=
        c.prompts_and_responses ++ [(new_prompt, encodeResponse response)] },
     .ok response)

/-- `ChatOpenAI.Send`: `_Send0`, then append `response.choices[0].message`
(minus `function_call`/`tool_calls`) to `messages`.  An empty `choices`
list models the `IndexError` of `response.choices[0]`. -/
def Send (client : Client) (remove_last_msg_on_fail : Bool)
    (kw : List (String × JVal)) (c : ChatOpenAI) :
    ChatOpenAI × Except String ChatResponse :=
  match Send0 client remove_last_msg_on_fail kw c with
  | (c1, .error e) => (c1, .error e)
  | (c1, .ok response) =>
    match response.choices with
    | [] => (c1, .error "IndexError")
    | ch :: _ =>
      ({ c1 with messages := c1.messages ++ [ch.message] }, .ok response)

/-- `ChatOpenAI._Chat0`: `Send`, then return
`response.choices[0].message.content.strip()`. -/
def Chat0 (client : Client) (remove_last_msg_on_fail : Bool)
    (kw : List (String × JVal)) (c : ChatOpenAI) : ChatOpenAI × Except String String :=
  match Send client remove_last_msg_on_fail kw c with
  | (c1, .error e) => (c1, .error e)
  | (c1, .ok response) =>
    match response.choices with
    | [] => (c1, .error "IndexError")
    | ch :: _ => (c1, .ok (pyStripS ch.message.content))

/-- `ChatOpenAI.Add`: append `{'role': role, 'content': content}`. -/
def chatAdd (role content : String) (c : ChatOpenAI) : ChatOpenAI :=
  { c with messages := c.messages ++ [⟨role, content⟩] }

/-- `ChatOpenAI.User`. -/
def chatUser (content : String) (c : ChatOpenAI) : ChatOpenAI := chatAdd "user" content c

/-- `ChatOpenAI.System`. -/
def chatSystem (content : String) (c : ChatOpenAI) : ChatOpenAI := chatAdd "system" content c

/-- `ChatOpenAI.UserChat`: append the user message, then
`_Chat0(True, **kw)` — rollback-on-failure enabled. -/
def UserChat (client : Client) (content : String) (kw : List (String × JVal))
    (c : ChatOpenAI) : ChatOpenAI × Except String String :=
  Chat0 client true kw (chatUser content c)

/-- `ChatOpenAI.SystemChat`: same with role `'system'`. -/
def SystemChat (client : Client) (content : String) (kw : List (String × JVal))
    (c : ChatOpenAI) : ChatOpenAI × Except String String :=
  Chat0 client true kw (chatSystem content c)

/-- A message-list mutation performed by the caller after a send:
`Add` (any role) or `pop()` (default index). -/
inductive MsgOp where
  | add (role content : String)
  | pop

/-- Apply one mutation. -/
def applyOp (c : ChatOpenAI) : MsgOp → ChatOpenAI
  | .add r ct => chatAdd r ct c
  | .pop => chatPop c

/-- Apply a sequence of mutations in order. -/
def applyOps (c : ChatOpenAI) (ops : List MsgOp) : ChatOpenAI := ops.foldl applyOp c

/-! ### The store (`ChatDatabase`, `database.py`)

The sqlite table `name TEXT PRIMARY KEY, json TEXT` is an association list
of rows.  `INSERT OR REPLACE` deletes any row with the conflicting primary
key and inserts the new row; each statement is committed before the call
returns. -/

/-- The `ChatDatabase` table contents. -/
structure ChatDatabase where
  table : List (String × JVal)

/-- `Chat()`: the fresh empty conversation
(`DEFAULT_ARGS | {}`, no messages, no archived exchanges). -/
def emptyChat : ChatOpenAI :=
  { args := DEFAULT_ARGS, messages := [], prompts_and_responses := [] }

/-- `ChatDatabase.AddChat` (also `__setitem__`): reject a conversation with
no messages and no archived exchanges (return `False`, no write);
otherwise `INSERT OR REPLACE` the serialized conversation under `name` and
return `True`. -/
def AddChat (db : ChatDatabase) (name : String) (chat : ChatOpenAI) :
    ChatDatabase × Bool :=
  if chat.messages.isEmpty && chat.prompts_and_responses.isEmpty then (db, false)
  else ({ table := db.table.filter (fun p => p.1 ≠ name) ++ [(name, JSONDumpVal chat)] },
        true)

/-- `ChatDatabase.GetChat` (also `__getitem__`): `SELECT json ... WHERE
name = ?`; an absent name yields the fresh `Chat()`, a present row is
rebuilt with `Chat(**json.loads(row))` (`none` models the constructor
raising on a malformed blob). -/
def GetChat (db : ChatDatabase) (name : String) : Option ChatOpenAI :=
  match dictLookup db.table name with
  | none => some emptyChat
  | some (.obj kwargs) => ChatOfKwargs kwargs
  | some _ => none

/-- `ChatDatabase.GetNames`: all row names in storage order. -/
def GetNames (db : ChatDatabase) : List String := db.table.map Prod.fst

/-! ### Terminal rendering (`colors.py`, `StrTerm`, `GetContentStrTerm`)

The two class-level regexes of `ChatOpenAI` are

    code_regex    = (?P<before>(?:.|\n)*?(?:^|\n)\s*)BBB(?P<lang>.*)\n(?P<code>(?:.|\n)*?\n\s*)BBB
    keyword_regex = B(.+?)B

(`B` stands for one back-tick; no `re.MULTILINE`, so `^` anchors only at
the absolute start of the content).  They are embedded as scanners over
`List Char` that follow Python's backtracking order on exactly these
patterns:

* the lazy `before` grows one character at a time, so the engine settles on
  the leftmost `(^|\n)\s*` run that is followed by an opening fence whose
  whole section (language line ending in a newline, and a closing fence)
  completes — an opening fence that never closes is skipped over;
* a greedy `\s*` can only stop at the end of a maximal whitespace run
  (stopping earlier leaves a whitespace character where a back-tick is
  required), so each candidate newline determines at most one fence start;
* `lang = .*` (greedy, no newline) is the rest of the opening-fence line;
* the lazy `code` stops at the first newline that is followed only by
  whitespace and then a closing triple back-tick; the captured group keeps
  that trailing newline-plus-whitespace, the three closing back-ticks stay
  outside it. -/

/-- A palette: the class-level display attributes of `colors.py`
(`black_background_colors` / `nocolors`), as character lists. -/
structure Colors where
  ROLE_HEADER : List Char
  ROLE_HEADER_COLOR : List Char
  ENDC : List Char
  USER_ROLE : List Char
  USER_CONTENT : List Char
  ASSISTANT_ROLE : List Char
  ASSISTANT_CONTENT : List Char
  SYSTEM_ROLE : List Char
  SYSTEM_CONTENT : List Char
  CODE_BEGIN : List Char
  CODE_START_TXT : List Char
  CODE_END_TXT : List Char
  CODE_SEP_STARTER : List Char
  CODE_SEP_ENDER : List Char
  CODE_SEP_LANG : List Char
  KEYWORD_BEGIN : List Char

/-- `colors.black_background_colors` (the default palette). -/
def black_background_colors : Colors where
  ROLE_HEADER := "▪".data
  ROLE_HEADER_COLOR := "\x1b[93m".data
  ENDC := "\x1b[0m".data
  USER_ROLE := "\x1b[94m".data
  USER_CONTENT := ("\x1b[3m" ++ "\x1b[47m").data
  ASSISTANT_ROLE := "\x1b[93m".data
  ASSISTANT_CONTENT := "".data
  SYSTEM_ROLE := "\x1b[91m".data
  SYSTEM_CONTENT := "\x1b[1m".data
  CODE_BEGIN := "\x1b[34m".data
  CODE_START_TXT := [tick, tick, tick]
  CODE_END_TXT := [tick, tick, tick]
  CODE_SEP_STARTER := "\x1b[01;32m".data
  CODE_SEP_ENDER := "\x1b[01;32m".data
  CODE_SEP_LANG := ("\x1b[0;31m" ++ "\x1b[4m").data
  KEYWORD_BEGIN := "\x1b[96m".data

/-- `colors.nocolors` (the plain palette). -/
def nocolors : Colors where
  ROLE_HEADER := "*".data
  ROLE_HEADER_COLOR := "".data
  ENDC := "".data
  USER_ROLE := "".data
  USER_CONTENT := "".data
  ASSISTANT_ROLE := "".data
  ASSISTANT_CONTENT := "".data
  SYSTEM_ROLE := "".data
  SYSTEM_CONTENT := "".data
  CODE_BEGIN := "".data
  CODE_START_TXT := [tick, tick, tick]
  CODE_END_TXT := [tick, tick, tick]
  CODE_SEP_STARTER := "".data
  CODE_SEP_ENDER := "".data
  CODE_SEP_LANG := "".data
  KEYWORD_BEGIN := "".data

/-- Greedy `\s*`: split off the maximal whitespace run. -/
def skipWs : List Char → List Char × List Char
  | [] => ([], [])
  | c :: cs =>
    if isPySpace c then
      let p := skipWs cs
      (c :: p.1, p.2)
    else ([], c :: cs)

/-- Strip a literal triple back-tick. -/
def stripTicks : List Char → Option (List Char)
  | a :: b :: c :: r => if a = tick ∧ b = tick ∧ c = tick then some r else none
  | _ => none

/-- Greedy `.*`: split at the first newline (which stays in the second
component). -/
def spanLine : List Char → List Char × List Char
  | [] => ([], [])
  | c :: cs =>
    if c = '\n' then ([], c :: cs)
    else
      let p := spanLine cs
      (c :: p.1, p.2)

/-- The lazy `code` group and its closing fence:
`(?P<code>(?:.|\n)*?\n\s*)BBB`.  Scanning left to right, the first newline
followed by (maximal) whitespace and a triple back-tick closes the section;
the returned first component is the captured `code` group (body including
the closing newline and whitespace), the second is the text after the three
closing back-ticks. -/
def findClose : List Char → Option (List Char × List Char)
  | [] => none
  | c :: cs =>
    if c = '\n' then
      let p := skipWs cs
      match stripTicks p.2 with
      | some rest => some (c :: p.1, rest)
      | none =>
        match findClose cs with
        | some q => some (c :: q.1, q.2)
        | none => none
    else
      match findClose cs with
      | some q => some (c :: q.1, q.2)
      | none => none

/-- After an opening triple back-tick: the `lang` line (`.*\n`), then the
body up to the closing fence.  Returns `(lang, code, rest)`; `none` when no
newline follows the opening fence or no closing fence exists, in which case
the engine extends `before` past this candidate. -/
def afterTicks (r : List Char) : Option (List Char × List Char × List Char) :=
  let p := spanLine r
  match p.2 with
  | '\n' :: body =>
    match findClose body with
    | some q => some (p.1, q.1, q.2)
    | none => none
  | _ => none

/-- One attempt of `(^|\n)\s*BBB...` just after a matched anchor: greedy
whitespace, the opening fence, and the rest of the section.  Returns
`(consumed whitespace, lang, code, rest)`. -/
def tryOpen (afterNl : List Char) : Option (List Char × List Char × List Char × List Char) :=
  let p := skipWs afterNl
  match stripTicks p.2 with
  | some r1 =>
    match afterTicks r1 with
    | some q => some (p.1, q.1, q.2.1, q.2.2)
    | none => none
  | none => none

/-- The lazy `before` scan over `\n` anchors: at each newline (left to
right) attempt `tryOpen`; on failure the newline joins `before` and the
scan continues.  Returns `(before, lang, code, rest)`. -/
def scanB : List Char → Option (List Char × List Char × List Char × List Char)
  | [] => none
  | c :: cs =>
    if c = '\n' then
      match tryOpen cs with
      | some q => some (c :: q.1, q.2.1, q.2.2.1, q.2.2.2)
      | none =>
        match scanB cs with
        | some q => some (c :: q.1, q.2.1, q.2.2.1, q.2.2.2)
        | none => none
    else
      match scanB cs with
      | some q => some (c :: q.1, q.2.1, q.2.2.1, q.2.2.2)
      | none => none

/-- One `code_regex` search.  When the search starts at the absolute
beginning of the content (`atStart`), the `^` alternative is attempted
first; afterwards only `\n` anchors remain. -/
def scanMatch (atStart : Bool) (s : List Char) :
    Option (List Char × List Char × List Char × List Char) :=
  if atStart then
    match tryOpen s with
    | some q => some (q.1, q.2.1, q.2.2.1, q.2.2.2)
    | none => scanB s
  else scanB s

/-- `code_regex.finditer`: repeat `scanMatch` from the end of the previous
match, collecting all non-overlapping `(before, lang, code)` groups in
order; the second component is the text after the last match
(`content[last_end:]`).  `fuel` bounds the loop; every match consumes at
least one character, so `length + 1` is always enough. -/
def codeSectionsF (fuel : Nat) (atStart : Bool) (s : List Char) :
    List (List Char × List Char × List Char) × List Char :=
  match fuel with
  | 0 => ([], s)
  | f + 1 =>
    match scanMatch atStart s with
    | none => ([], s)
    | some (bef, lang, code, rest) =>
      let p := codeSectionsF f false rest
      ((bef, lang, code) :: p.1, p.2)

/-- All fenced code sections of an assistant message, with the trailing
text. -/
def codeSections (s : List Char) : List (List Char × List Char × List Char) × List Char :=
  codeSectionsF (s.length + 1) true s

/-- `keyword_regex` closing scan: after an opening back-tick and the first
inner character, find the closing back-tick on the same line.  Returns
(remaining inner characters, text after the closing tick). -/
def kwClose : List Char → Option (List Char × List Char)
  | [] => none
  | c :: cs =>
    if c = tick then some ([], cs)
    else if c = '\n' then none
    else
      match kwClose cs with
      | some q => some (c :: q.1, q.2)
      | none => none

/-- `keyword_regex.sub(repl, s)`: scan left to right; at each back-tick try
to match `B(.+?)B` (at least one non-newline character between the ticks,
closed by the nearest back-tick); on a match emit `repl inner` and resume
after the closing tick, otherwise copy one character and continue.  `fuel`
bounds the loop; each step consumes at least one character. -/
def kwSubF (repl : List Char → List Char) : Nat → List Char → List Char
  | 0, s => s
  | _ + 1, [] => []
  | f + 1, c :: cs =>
    if c = tick then
      match cs with
      | [] => [c]
      | c1 :: rest =>
        if c1 = '\n' then c :: kwSubF repl f cs
        else
          match kwClose rest with
          | some q => repl (c1 :: q.1) ++ kwSubF repl f q.2
          | none => c :: kwSubF repl f cs
    else c :: kwSubF repl f cs

/-- `keyword_regex.sub(repl, s)` with sufficient fuel. -/
def keywordSub (repl : List Char → List Char) (s : List Char) : List Char :=
  kwSubF repl s.length s

/-- The replacement template `keyword_sub_str`:
`` B{ENDC}{KEYWORD_BEGIN}\1{ENDC}{ASSISTANT_CONTENT}B `` — the literal
back-ticks stay, the captured text is wrapped in the keyword color and the
style returns to the assistant content style. -/
def kwRepl (colors : Colors) (inner : List Char) : List Char :=
  tick :: (colors.ENDC ++ colors.KEYWORD_BEGIN ++ inner ++ colors.ENDC ++
    colors.ASSISTANT_CONTENT ++ [tick])

/-- The rendering of one fenced code section inside
`GetContentStrTerm` (the body of the `finditer` loop): the keyword-styled
`before` text, the start-fence header with the optional `(lang)` tag, the
highlighted code, and the end-fence marker. -/
def renderSection (colors : Colors) (hl : List Char → List Char → List Char)
    (sec : List Char × List Char × List Char) : List Char :=
  colors.ASSISTANT_CONTENT ++ keywordSub (kwRepl colors) sec.1 ++ colors.ENDC ++
  (if sec.2.1 ≠ [] then
    colors.CODE_SEP_STARTER ++ colors.CODE_START_TXT ++ "(".data ++ colors.ENDC ++
      colors.CODE_SEP_LANG ++ sec.2.1 ++ colors.ENDC ++ colors.CODE_SEP_STARTER ++
      ")".data ++ colors.ENDC ++ ['\n']
  else colors.CODE_SEP_STARTER ++ colors.CODE_START_TXT ++ colors.ENDC ++ ['\n']) ++
  colors.CODE_BEGIN ++ hl sec.2.1 sec.2.2 ++ colors.ENDC ++
  colors.CODE_SEP_ENDER ++ colors.CODE_END_TXT ++ colors.ENDC ++ ['\n']

/-- `ChatOpenAI.GetContentStrTerm`: the role-marker header, the styled role
name, and the role-dependent body.  `user`/`system` content is emitted
verbatim inside the role content style; `assistant` content goes through
fence segmentation, per-section rendering and inline-keyword re-styling of
the final text.  `hl` is `GetCodeHighlighted` (pygments), an external
collaborator. -/
def GetContentStrTerm (colors : Colors) (hl : List Char → List Char → List Char)
    (role : String) (content : List Char) : List Char :=
  colors.ROLE_HEADER_COLOR ++ colors.ROLE_HEADER ++ colors.ENDC ++ [' '] ++
  (if role = "user" then
    colors.USER_ROLE ++ role.data ++ colors.ENDC ++ ['\n'] ++
      colors.USER_CONTENT ++ content ++ colors.ENDC ++ ['\n']
  else if role = "assistant" then
    colors.ASSISTANT_ROLE ++ role.data ++ colors.ENDC ++ ['\n'] ++
      (let p := codeSections content
       (p.1.map (renderSection colors hl)).flatten ++
         colors.ASSISTANT_CONTENT ++ keywordSub (kwRepl colors) p.2 ++
         colors.ENDC ++ ['\n'])
  else if role = "system" then
    colors.SYSTEM_ROLE ++ role.data ++ colors.ENDC ++ ['\n'] ++
      colors.SYSTEM_CONTENT ++ content ++ colors.ENDC ++ ['\n']
  else [])

/-- `ChatOpenAI.StrTerm`: `"<empty conversation>"` for a falsy
conversation, otherwise the concatenation of `GetContentStrTerm` over the
messages with stripped content. -/
def StrTerm (colors : Colors) (hl : List Char → List Char → List Char)
    (c : ChatOpenAI) : List Char :=
  if c.messages.isEmpty then "<empty conversation>".data
  else (c.messages.map (fun m => GetContentStrTerm colors hl m.role (pyStrip m.content.data))).flatten

/-! ### Input families for the rendering theorems

Assistant contents containing fenced code sections, and plain-text spans
containing inline back-tick tokens, are described by explicit assembly
functions together with well-formedness tests; the theorems below show how
the scanners decompose exactly these shapes. -/

/-- A literal triple back-tick. -/
def tick3 : List Char := [tick, tick, tick]

/-- Whether a triple back-tick occurs anywhere in the text. -/
def hasTriple : List Char → Bool
  | a :: b :: c :: r =>
    if a = tick ∧ b = tick ∧ c = tick then true else hasTriple (b :: c :: r)
  | _ => false

/-- Assistant content built from fenced code sections: each block is
`(plain text, language tag, code body)` rendered as
`plain BBB lang \n body \n BBB`, with trailing text `tl` after the last
section. -/
def assemble : List (List Char × List Char × List Char) → List Char → List Char
  | [], tl => tl
  | blk :: rest, tl =>
    blk.1 ++ tick3 ++ blk.2.1 ++ '\n' :: blk.2.2 ++ '\n' :: tick3 ++ assemble rest tl

/-- A plain span may precede an opening fence: it contains no triple
back-tick and either ends with a newline or (only for the span at the very
start of the content) consists of whitespace. -/
def wfPlain (atStart : Bool) (p : List Char) : Bool :=
  !hasTriple p && (decide (p.getLast? = some '\n') || (atStart && p.all isPySpace))

/-- Well-formed fenced sections: each language tag fits on the opening
fence line, and each body closes at its own closing fence (it contains no
triple back-tick). -/
def wfBlocks : Bool → List (List Char × List Char × List Char) → Bool
  | _, [] => true
  | atStart, blk :: rest =>
    wfPlain atStart blk.1 && decide ('\n' ∉ blk.2.1) && !hasTriple blk.2.2 &&
      wfBlocks false rest

/-- A plain-text span built from inline back-tick tokens: each pair is
`(plain text, token)` rendered as `plain B token B`, with trailing text
after the last token. -/
def assembleKw : List (List Char × List Char) → List Char → List Char
  | [], tl => tl
  | pr :: rest, tl => pr.1 ++ tick :: pr.2 ++ tick :: assembleKw rest tl

/-- Well-formed inline tokens: the plain parts carry no back-tick, each
token is non-empty and contains neither a back-tick nor a newline. -/
def wfKw : List (List Char × List Char) → Bool
  | [] => true
  | pr :: rest =>
    decide (tick ∉ pr.1) && !pr.2.isEmpty && decide (tick ∉ pr.2) &&
      decide ('\n' ∉ pr.2) && wfKw rest

/-! ## Shared lemmas -/

mutual

theorem JVal.beq_refl : (v : JVal) → JVal.beq v v = true
  | .str _ => by simp [JVal.beq]
  | .num _ => by simp [JVal.beq]
  | .bool _ => by simp [JVal.beq]
  | .null => by simp [JVal.beq]
  | .arr a => by simp [JVal.beq, JVal.beqList_refl a]
  | .obj a => by simp [JVal.beq, JVal.beqFields_refl a]

theorem JVal.beqList_refl : (l : List JVal) → JVal.beqList l l = true
  | [] => by simp [JVal.beqList]
  | x :: xs => by simp [JVal.beqList, JVal.beq_refl x, JVal.beqList_refl xs]

theorem JVal.beqFields_refl : (l : List (String × JVal)) → JVal.beqFields l l = true
  | [] => by simp [JVal.beqFields]
  | x :: xs => by simp [JVal.beqFields, JVal.beq_refl x.2, JVal.beqFields_refl xs]

end

theorem dictLookup_insert (d : List (String × JVal)) (k : String) (v : JVal)
    (k2 : String) :
    dictLookup (dictInsert d k v) k2 = if k = k2 then some v else dictLookup d k2 := by
  induction d with
  | nil => simp [dictInsert, dictLookup]
  | cons p t ih =>
    by_cases hp : p.1 = k
    · simp only [dictInsert, hp, if_pos]
      by_cases hk : k = k2 <;> simp [dictLookup, hk, hp]
    · simp only [dictInsert, hp, if_neg, not_false_iff]
      by_cases hk2 : p.1 = k2
      · have : ¬ k = k2 := by
          intro h
          exact hp (h ▸ hk2)
        simp [dictLookup, hk2, this]
      · simp [dictLookup, hk2, ih]

theorem dictLookup_none_of_not_mem (d : List (String × JVal)) (k : String)
    (h : k ∉ dictKeys d) : dictLookup d k = none := by
  induction d with
  | nil => simp [dictLookup]
  | cons p t ih =>
    simp only [dictKeys, List.map_cons, List.mem_cons] at h
    push_neg at h
    have hp : p.1 ≠ k := fun hh => h.1 hh.symm
    simp only [dictLookup, hp, if_neg, not_false_iff]
    exact ih (by simpa [dictKeys] using h.2)

theorem dictLookup_merge (b a : List (String × JVal)) (k : String)
    (hb : (dictKeys b).Nodup) :
    dictLookup (dictMerge a b) k =
      match dictLookup b k with
      | some v => some v
      | none => dictLookup a k := by
  induction b generalizing a with
  | nil => simp [dictMerge, dictLookup]
  | cons p t ih =>
    simp only [dictKeys, List.map_cons, List.nodup_cons] at hb
    have step : dictMerge a (p :: t) = dictMerge (dictInsert a p.1 p.2) t := by
      simp [dictMerge, List.foldl_cons]
    rw [step, ih _ (by simpa [dictKeys] using hb.2)]
    by_cases hk : p.1 = k
    · have ht : dictLookup t k = none := by
        apply dictLookup_none_of_not_mem
        simpa [dictKeys, hk] using hb.1
      simp [dictLookup, hk, ht, dictLookup_insert]
    · simp only [dictLookup, hk, if_neg, not_false_iff]
      cases dictLookup t k <;> simp [dictLookup_insert, hk]

theorem dictKeys_insert_nodup (d : List (String × JVal)) (k : String) (v : JVal)
    (h : (dictKeys d).Nodup) : (dictKeys (dictInsert d k v)).Nodup := by
  induction d with
  | nil => simp [dictInsert, dictKeys]
  | cons p t ih =>
    simp only [dictKeys, List.map_cons, List.nodup_cons] at h
    by_cases hp : p.1 = k
    · simp only [dictInsert, hp, if_pos]
      simp only [dictKeys, List.map_cons, List.nodup_cons]
      exact ⟨by simpa [hp] using h.1, h.2⟩
    · simp only [dictInsert, hp, if_neg, not_false_iff]
      simp only [dictKeys, List.map_cons, List.nodup_cons]
      constructor
      · intro hmem
        have : p.1 ∈ dictKeys (dictInsert t k v) := by simpa [dictKeys] using hmem
        have hor : p.1 ∈ dictKeys t ∨ p.1 = k := by
          clear h ih hmem
          induction t with
          | nil => simpa [dictInsert, dictKeys] using this
          | cons q u ihq =>
            by_cases hq : q.1 = k
            · simp only [dictInsert, hq, if_pos] at this
              simp only [dictKeys, List.map_cons, List.mem_cons] at this ⊢
              rcases this with h1 | h1
              · exact Or.inr h1
              · exact Or.inl (Or.inr h1)
            · simp only [dictInsert, hq, if_neg, not_false_iff] at this
              simp only [dictKeys, List.map_cons, List.mem_cons] at this ⊢
              rcases this with h1 | h1
              · exact Or.inl (Or.inl h1)
              · rcases ihq h1 with h2 | h2
                · exact Or.inl (Or.inr h2)
                · exact Or.inr h2
        rcases hor with h1 | h1
        · exact h.1 (by simpa [dictKeys] using h1)
        · exact hp h1
      · exact ih h.2

theorem dictKeys_merge_nodup (b a : List (String × JVal))
    (ha : (dictKeys a).Nodup) : (dictKeys (dictMerge a b)).Nodup := by
  induction b generalizing a with
  | nil => simpa [dictMerge] using ha
  | cons p t ih =>
    have step : dictMerge a (p :: t) = dictMerge (dictInsert a p.1 p.2) t := by
      simp [dictMerge, List.foldl_cons]
    rw [step]
    exact ih _ (dictKeys_insert_nodup a p.1 p.2 ha)

theorem dictLookup_of_mem_nodup (d : List (String × JVal))
    (p : String × JVal) (hn : (dictKeys d).Nodup) (hm : p ∈ d) :
    dictLookup d p.1 = some p.2 := by
  induction d with
  | nil => simp at hm
  | cons q t ih =>
    simp only [dictKeys, List.map_cons, List.nodup_cons] at hn
    rcases List.mem_cons.mp hm with h1 | h1
    · simp [dictLookup, h1]
    · have hq : q.1 ≠ p.1 := by
        intro hh
        exact hn.1 (by
          have : p.1 ∈ dictKeys t := List.mem_map_of_mem Prod.fst h1
          simpa [dictKeys, hh] using this)
      simp only [dictLookup, hq, if_neg, not_false_iff]
      exact ih hn.2 h1

theorem dictEqb_of_lookup_eq (a b : List (String × JVal))
    (ha : (dictKeys a).Nodup) (hb : (dictKeys b).Nodup)
    (h : ∀ k, dictLookup a k = dictLookup b k) : dictEqb a b = true := by
  simp only [dictEqb, Bool.and_eq_true, List.all_eq_true]
  constructor
  · intro p hp
    have h1 : dictLookup a p.1 = some p.2 := dictLookup_of_mem_nodup a p ha hp
    have h2 : dictLookup b p.1 = some p.2 := by rw [← h]; exact h1
    simp [h2, optBeq, JVal.beq_refl]
  · intro p hp
    have h1 : dictLookup b p.1 = some p.2 := dictLookup_of_mem_nodup b p hb hp
    have h2 : dictLookup a p.1 = some p.2 := by rw [h]; exact h1
    simp [h2, optBeq, JVal.beq_refl]

theorem applyOp_log (c : ChatOpenAI) (op : MsgOp) :
    (applyOp c op).prompts_and_responses = c.prompts_and_responses := by
  cases op <;> simp [applyOp, chatAdd, chatPop]

theorem applyOps_log (ops : List MsgOp) (c : ChatOpenAI) :
    (applyOps c ops).prompts_and_responses = c.prompts_and_responses := by
  induction ops generalizing c with
  | nil => simp [applyOps]
  | cons op rest ih =>
    simp only [applyOps, List.foldl_cons]
    rw [show List.foldl applyOp (applyOp c op) rest = applyOps (applyOp c op) rest from rfl]
    rw [ih, applyOp_log]

/-! ## Claim theorems -/

/-- C1: For every Conversation and every failing Remote Completion Client,
`Send` without the rollback-on-failure option propagates the client error
unchanged and leaves the whole conversation state — in particular
`messages` and `prompts_and_responses` — exactly as it was: no partial
append. -/
theorem Send_fail_propagates_state_unchanged (c : ChatOpenAI) (client : Client)
    (kw : List (String × JVal)) (e : String)
    (h : client (buildPrompt c kw) = .error e) :
    Send client false kw c = (c, .error e) := by
  simp [Send, Send0, h]

theorem Send_fail_propagates_state_unchanged_witness :
    Send (fun _ => .error "connection reset") false [] emptyChat
      = (emptyChat, .error "connection reset") :=
  Send_fail_propagates_state_unchanged emptyChat (fun _ => .error "connection reset")
    [] "connection reset" rfl

/-- C9: Conversation equality (`__eq__`) is message-sequence equality
only: any two conversations with the same `messages` compare equal, no
matter how their `args` or `prompts_and_responses` differ. -/
theorem chatEq_ignores_args_and_log :
    ∀ (ms : List Msg) (a1 a2 : List (String × JVal))
      (l1 l2 : List (List (String × JVal) × JVal)),
      chatEq ⟨a1, ms, l1⟩ ⟨a2, ms, l2⟩ = true := by
  intro ms a1 a2 l1 l2
  simp [chatEq]

/-- C10: Rendering a conversation with no messages yields the literal
placeholder `"<empty conversation>"` — a non-empty unstyled string —
whatever the palette, the highlighter, and the exchange log are. -/
theorem StrTerm_empty_placeholder (colors : Colors)
    (hl : List Char → List Char → List Char) (c : ChatOpenAI)
    (h : c.messages = []) :
    StrTerm colors hl c = "<empty conversation>".data ∧
      StrTerm colors hl c ≠ [] := by
  constructor
  · simp [StrTerm, h]
  · simp [StrTerm, h, String.data]

theorem StrTerm_empty_placeholder_witness :
    StrTerm black_background_colors (fun _ code => code)
        ⟨[], [], [([("model", JVal.str "gpt-4o")], JVal.null)]⟩
      = "<empty conversation>".data ∧
    StrTerm black_background_colors (fun _ code => code)
        ⟨[], [], [([("model", JVal.str "gpt-4o")], JVal.null)]⟩ ≠ [] :=
  StrTerm_empty_placeholder black_background_colors (fun _ code => code)
    ⟨[], [], [([("model", JVal.str "gpt-4o")], JVal.null)]⟩ rfl

/-- C7: A successful `_Send0` archives as request snapshot the options
merged with the message list at send time (its `'messages'` entry is the
current message list), and no later sequence of message mutations
(appends, pops) touches the archived exchange-log entries. -/
theorem exchange_log_snapshot_immutable (c : ChatOpenAI) (client : Client)
    (flag : Bool) (kw : List (String × JVal)) (r : ChatResponse) (ops : List MsgOp)
    (h : client (buildPrompt c kw) = .ok r) :
    (applyOps (Send0 client flag kw c).1 ops).prompts_and_responses
        = c.prompts_and_responses ++ [(buildPrompt c kw, encodeResponse r)] ∧
      dictLookup (buildPrompt c kw) "messages" = some (encodeMsgs c.messages) := by
  constructor
  · rw [applyOps_log]
    simp [Send0, h]
  · simp [buildPrompt, dictLookup_insert]

theorem exchange_log_snapshot_immutable_witness :
    (applyOps
        (Send0 (fun _ => .ok ⟨[⟨⟨"assistant", "hello"⟩⟩], ⟨1, 2, 3⟩⟩) false []
          emptyChat).1
        [.add "user" "more", .pop, .pop]).prompts_and_responses
      = [(buildPrompt emptyChat [],
          encodeResponse ⟨[⟨⟨"assistant", "hello"⟩⟩], ⟨1, 2, 3⟩⟩)] ∧
    dictLookup (buildPrompt emptyChat []) "messages" = some (encodeMsgs []) :=
  exchange_log_snapshot_immutable emptyChat
    (fun _ => .ok ⟨[⟨⟨"assistant", "hello"⟩⟩], ⟨1, 2, 3⟩⟩) false []
    ⟨[⟨⟨"assistant", "hello"⟩⟩], ⟨1, 2, 3⟩⟩ [.add "user" "more", .pop, .pop] rfl

/-- C3: The ChatTurn conveniences `UserChat`/`SystemChat` (which enable
rollback-on-failure): when the client fails, the just-appended message is
removed, so `messages` is restored to its pre-call value and the error
propagates; on success `messages` grows by exactly 2 (the appended message
plus the assistant reply) and the stripped text of the new assistant
message is returned. -/
theorem ChatTurn_rollback_and_success (c : ChatOpenAI) (client : Client)
    (content : String) (kw : List (String × JVal)) :
    (∀ e, client (buildPrompt (chatUser content c) kw) = .error e →
       (UserChat client content kw c).1.messages = c.messages ∧
       (UserChat client content kw c).2 = .error e) ∧
    (∀ (r : ChatResponse) ch rest, client (buildPrompt (chatUser content c) kw) = .ok r →
       r.choices = ch :: rest →
       (UserChat client content kw c).1.messages.length = c.messages.length + 2 ∧
       (UserChat client content kw c).2 = .ok (pyStripS ch.message.content)) ∧
    (∀ e, client (buildPrompt (chatSystem content c) kw) = .error e →
       (SystemChat client content kw c).1.messages = c.messages ∧
       (SystemChat client content kw c).2 = .error e) ∧
    (∀ (r : ChatResponse) ch rest, client (buildPrompt (chatSystem content c) kw) = .ok r →
       r.choices = ch :: rest →
       (SystemChat client content kw c).1.messages.length = c.messages.length + 2 ∧
       (SystemChat client content kw c).2 = .ok (pyStripS ch.message.content)) := by
  refine ⟨?_, ?_, ?_, ?_⟩
  · intro e h
    simp only [UserChat, Chat0, Send, Send0, h]
    simp [chatPop, chatUser, chatAdd]
  · intro r ch rest h hc
    simp only [UserChat, Chat0, Send, Send0, h]
    simp [hc, chatUser, chatAdd]
  · intro e h
    simp only [SystemChat, Chat0, Send, Send0, h]
    simp [chatPop, chatSystem, chatAdd]
  · intro r ch rest h hc
    simp only [SystemChat, Chat0, Send, Send0, h]
    simp [hc, chatSystem, chatAdd]

theorem ChatTurn_rollback_and_success_witness :
    ((UserChat (fun _ => .error "quota") "hi" [] emptyChat).1.messages
        = emptyChat.messages ∧
      (UserChat (fun _ => .error "quota") "hi" [] emptyChat).2 = .error "quota") ∧
    ((UserChat (fun _ => .ok ⟨[⟨⟨"assistant", " hello \n"⟩⟩], ⟨1, 2, 3⟩⟩) "hi" []
          emptyChat).1.messages.length = emptyChat.messages.length + 2 ∧
      (UserChat (fun _ => .ok ⟨[⟨⟨"assistant", " hello \n"⟩⟩], ⟨1, 2, 3⟩⟩) "hi" []
          emptyChat).2 = .ok (pyStripS " hello \n")) ∧
    ((SystemChat (fun _ => .error "quota") "hi" [] emptyChat).1.messages
        = emptyChat.messages ∧
      (SystemChat (fun _ => .error "quota") "hi" [] emptyChat).2 = .error "quota") :=
  ⟨(ChatTurn_rollback_and_success emptyChat (fun _ => .error "quota") "hi" []).1
      "quota" rfl,
   (ChatTurn_rollback_and_success emptyChat
      (fun _ => .ok ⟨[⟨⟨"assistant", " hello \n"⟩⟩], ⟨1, 2, 3⟩⟩) "hi" []).2.1
      ⟨[⟨⟨"assistant", " hello \n"⟩⟩], ⟨1, 2, 3⟩⟩ ⟨⟨"assistant", " hello \n"⟩⟩ [] rfl rfl,
   (ChatTurn_rollback_and_success emptyChat (fun _ => .error "quota") "hi" []).2.2.1
      "quota" rfl⟩

/-- C6: `GetChat` on a name absent from the store returns a fresh empty
conversation (no messages, no archived exchanges) instead of raising. -/
theorem GetChat_missing_returns_empty (db : ChatDatabase) (name : String)
    (h : dictLookup db.table name = none) :
    GetChat db name = some emptyChat ∧ emptyChat.messages = [] ∧
      emptyChat.prompts_and_responses = [] := by
  refine ⟨?_, rfl, rfl⟩
  simp [GetChat, h]

theorem GetChat_missing_returns_empty_witness :
    GetChat ⟨[("kept", JSONDumpVal emptyChat)]⟩ "absent" = some emptyChat ∧
      emptyChat.messages = [] ∧ emptyChat.prompts_and_responses = [] :=
  GetChat_missing_returns_empty ⟨[("kept", JSONDumpVal emptyChat)]⟩ "absent" rfl

theorem dictLookup_append (a b : List (String × JVal)) (k : String) :
    dictLookup (a ++ b) k =
      match dictLookup a k with
      | some v => some v
      | none => dictLookup b k := by
  induction a with
  | nil => simp [dictLookup]
  | cons p t ih =>
    by_cases hp : p.1 = k <;> simp [dictLookup, hp, ih]

theorem dictLookup_filter_ne (l : List (String × JVal)) (k : String) :
    dictLookup (l.filter (fun p => p.1 ≠ k)) k = none := by
  induction l with
  | nil => rfl
  | cons p t ih =>
    rw [List.filter_cons]
    by_cases hp : p.1 = k
    · rw [if_neg (by simp [hp])]
      exact ih
    · rw [if_pos (by simp [hp])]
      rw [show dictLookup (p :: t.filter (fun q => q.1 ≠ k)) k
          = if p.1 = k then some p.2 else dictLookup (t.filter (fun q => q.1 ≠ k)) k
          from rfl]
      rw [if_neg hp]
      exact ih

/-- C4: `AddChat` of a conversation with no messages and no archived
exchanges returns `False` and writes nothing (`GetNames` unchanged); for
any other conversation it returns `True` and stores its serialization
under the name, wholesale: the stored blob is exactly the dump of the new
conversation, whatever was stored there before. -/
theorem AddChat_empty_refused_nonempty_replaces (db : ChatDatabase)
    (name : String) (chat : ChatOpenAI) :
    (chat.messages = [] → chat.prompts_and_responses = [] →
       AddChat db name chat = (db, false) ∧
       GetNames (AddChat db name chat).1 = GetNames db) ∧
    (chat.messages ≠ [] ∨ chat.prompts_and_responses ≠ [] →
       (AddChat db name chat).2 = true ∧
       dictLookup (AddChat db name chat).1.table name = some (JSONDumpVal chat)) := by
  constructor
  · intro h1 h2
    have heq : AddChat db name chat = (db, false) := by
      simp [AddChat, h1, h2]
    exact ⟨heq, by rw [heq]⟩
  · intro h
    have hcond : (chat.messages.isEmpty && chat.prompts_and_responses.isEmpty) = false := by
      rcases h with h | h
      · have hm : chat.messages.isEmpty = false := by
          cases hx : chat.messages
          · exact absurd hx h
          · rfl
        simp [hm]
      · have hm : chat.prompts_and_responses.isEmpty = false := by
          cases hx : chat.prompts_and_responses
          · exact absurd hx h
          · rfl
        simp [hm]
    have heq : AddChat db name chat
        = (⟨db.table.filter (fun p => p.1 ≠ name) ++ [(name, JSONDumpVal chat)]⟩, true) := by
      simp [AddChat, hcond]
    rw [heq]
    refine ⟨rfl, ?_⟩
    show dictLookup (db.table.filter (fun p => p.1 ≠ name) ++ [(name, JSONDumpVal chat)])
        name = some (JSONDumpVal chat)
    rw [dictLookup_append, dictLookup_filter_ne]
    simp [dictLookup]

theorem AddChat_empty_refused_nonempty_replaces_witness :
    (AddChat ⟨[("other", JVal.null)]⟩ "talk" emptyChat
        = (⟨[("other", JVal.null)]⟩, false) ∧
      GetNames (AddChat ⟨[("other", JVal.null)]⟩ "talk" emptyChat).1
        = GetNames ⟨[("other", JVal.null)]⟩) ∧
    ((AddChat ⟨[("talk", JVal.null)]⟩ "talk"
        ⟨DEFAULT_ARGS, [⟨"user", "hi"⟩], []⟩).2 = true ∧
      dictLookup (AddChat ⟨[("talk", JVal.null)]⟩ "talk"
          ⟨DEFAULT_ARGS, [⟨"user", "hi"⟩], []⟩).1.table "talk"
        = some (JSONDumpVal ⟨DEFAULT_ARGS, [⟨"user", "hi"⟩], []⟩)) :=
  ⟨(AddChat_empty_refused_nonempty_replaces ⟨[("other", JVal.null)]⟩ "talk"
      emptyChat).1 rfl rfl,
   (AddChat_empty_refused_nonempty_replaces ⟨[("talk", JVal.null)]⟩ "talk"
      ⟨DEFAULT_ARGS, [⟨"user", "hi"⟩], []⟩).2 (Or.inl (by simp))⟩

theorem decodeMsg_encodeMsg (m : Msg) : decodeMsg (encodeMsg m) = some m := by
  simp [decodeMsg, encodeMsg, dictLookup]

theorem decodeMsgs_encodeMsgs (ms : List Msg) : decodeMsgs (encodeMsgs ms) = some ms := by
  simp only [decodeMsgs, encodeMsgs]
  induction ms with
  | nil => rfl
  | cons m t ih =>
    simp only [List.map_cons, List.mapM_cons, decodeMsg_encodeMsg]
    simp only [List.map] at ih
    rw [ih]
    rfl

theorem decodeEntry_encodeEntry (e : List (String × JVal) × JVal) :
    decodeEntry (encodeEntry e) = some e := by
  rfl

theorem decodeLog_encodeLog (l : List (List (String × JVal) × JVal)) :
    decodeLog (encodeLog l) = some l := by
  simp only [decodeLog, encodeLog]
  induction l with
  | nil => rfl
  | cons e t ih =>
    simp only [List.map_cons, List.mapM_cons, decodeEntry_encodeEntry]
    simp only [List.map] at ih
    rw [ih]
    rfl

theorem dictMerge_nil (a : List (String × JVal)) : dictMerge a [] = a := rfl

/-- C2: Round-trip law — rebuilding a conversation from
`json.loads(c.JSONDump())` through the constructor succeeds and yields a
conversation whose `args` is the same options map (Python dict equality),
whose `prompts_and_responses` is identical, and whose `messages` equals
`c.messages`.  The two hypotheses state the invariants every conversation
the program builds has: its `args` is a dict (unique keys) that was seeded
from `DEFAULT_ARGS` (so the `'model'` key is present). -/
theorem RoundTrip_preserves_conversation (c : ChatOpenAI)
    (hm : (dictLookup c.args "model").isSome = true)
    (hn : (dictKeys c.args).Nodup) :
    RoundTrip c = some
        { args := dictMerge DEFAULT_ARGS c.args,
          messages := c.messages,
          prompts_and_responses := c.prompts_and_responses } ∧
      dictEqb (dictMerge DEFAULT_ARGS c.args) c.args = true := by
  constructor
  · show ChatOfKwargs
        [("args", .obj c.args),
         ("messages", encodeMsgs c.messages),
         ("prompts_and_responses", encodeLog c.prompts_and_responses)] = _
    simp only [ChatOfKwargs, popKw, dictLookup]
    norm_num
    simp only [decodeMsgs_encodeMsgs, decodeLog_encodeLog, List.filter]
    norm_num [dictMerge_nil]
  · apply dictEqb_of_lookup_eq
    · exact dictKeys_merge_nodup c.args DEFAULT_ARGS (by simp [DEFAULT_ARGS, dictKeys])
    · exact hn
    · intro k
      rw [dictLookup_merge c.args DEFAULT_ARGS k hn]
      by_cases hk : k = "model"
      · subst hk
        rcases Option.isSome_iff_exists.mp hm with ⟨v, hv⟩
        simp [hv]
      · have : dictLookup DEFAULT_ARGS k = none := by
          simp only [DEFAULT_ARGS, dictLookup]
          rw [if_neg (fun hh => hk hh.symm)]
        rw [this]
        cases dictLookup c.args k <;> simp

theorem RoundTrip_preserves_conversation_witness :
    RoundTrip ⟨[("model", JVal.str "gpt-4o"), ("temperature", JVal.num 1)],
        [⟨"user", "hi"⟩, ⟨"assistant", "hello"⟩],
        [([("model", JVal.str "gpt-4o")], JVal.null)]⟩ = some
        { args := dictMerge DEFAULT_ARGS
            [("model", JVal.str "gpt-4o"), ("temperature", JVal.num 1)],
          messages := [⟨"user", "hi"⟩, ⟨"assistant", "hello"⟩],
          prompts_and_responses := [([("model", JVal.str "gpt-4o")], JVal.null)] } ∧
      dictEqb (dictMerge DEFAULT_ARGS
          [("model", JVal.str "gpt-4o"), ("temperature", JVal.num 1)])
        [("model", JVal.str "gpt-4o"), ("temperature", JVal.num 1)] = true :=
  RoundTrip_preserves_conversation
    ⟨[("model", JVal.str "gpt-4o"), ("temperature", JVal.num 1)],
      [⟨"user", "hi"⟩, ⟨"assistant", "hello"⟩],
      [([("model", JVal.str "gpt-4o")], JVal.null)]⟩
    (by rfl) (by decide)

theorem tick3_cons (t : List Char) : tick3 ++ t = tick :: tick :: tick :: t := rfl

theorem isPySpace_tick : isPySpace tick = false := by decide

theorem isPySpace_nl : isPySpace '\n' = true := by decide

theorem skipWs_append_ws (w r : List Char) (hw : w.all isPySpace = true)
    (hr : ∀ x, r.head? = some x → isPySpace x = false) :
    skipWs (w ++ r) = (w, r) := by
  induction w with
  | nil =>
    cases r with
    | nil => rfl
    | cons x t =>
      have hx : isPySpace x = false := hr x rfl
      simp [skipWs, hx]
  | cons c t ih =>
    simp only [List.all_cons, Bool.and_eq_true] at hw
    simp [skipWs, hw.1, ih hw.2]

theorem skipWs_split (s : List Char) : s = (skipWs s).1 ++ (skipWs s).2 := by
  induction s with
  | nil => rfl
  | cons c t ih =>
    by_cases hc : isPySpace c = true
    · simp only [skipWs, hc, if_pos]
      conv_lhs => rw [ih]
      rfl
    · simp [skipWs, hc]

theorem allWs_decomp (v : List Char) (h : v.all isPySpace = false) :
    ∃ w d v2, v = w ++ d :: v2 ∧ w.all isPySpace = true ∧ isPySpace d = false := by
  induction v with
  | nil => simp at h
  | cons c t ih =>
    by_cases hc : isPySpace c = true
    · have ht : t.all isPySpace = false := by
        cases hx : t.all isPySpace
        · rfl
        · simp [List.all_cons, hc, hx] at h
      rcases ih ht with ⟨w, d, v2, hv, hw, hd⟩
      exact ⟨c :: w, d, v2, by simp [hv], by simp [hc, hw], hd⟩
    · exact ⟨[], c, t, rfl, rfl, by simpa using hc⟩

theorem hasTriple_iff (s : List Char) :
    hasTriple s = true ↔ ∃ x y, s = x ++ tick :: tick :: tick :: y := by
  constructor
  · intro h
    induction s with
    | nil => simp [hasTriple] at h
    | cons a s2 ih =>
      match s2, h with
      | b :: c :: r, h =>
        rw [hasTriple] at h
        by_cases habc : a = tick ∧ b = tick ∧ c = tick
        · exact ⟨[], r, by simp [habc.1, habc.2.1, habc.2.2]⟩
        · rw [if_neg habc] at h
          rcases ih h with ⟨x, y, hxy⟩
          exact ⟨a :: x, y, by simp [hxy]⟩
  · rintro ⟨x, y, rfl⟩
    induction x with
    | nil => simp [hasTriple]
    | cons a x2 ih =>
      cases x2 with
      | nil =>
        simp only [List.nil_append] at ih
        simp only [List.cons_append, List.nil_append]
        rw [hasTriple, ih]
        simp
      | cons b x3 =>
        cases x3 with
        | nil =>
          simp only [List.cons_append, List.nil_append] at ih ⊢
          rw [hasTriple, ih]
          simp
        | cons c x4 =>
          simp only [List.cons_append] at ih ⊢
          rw [hasTriple, ih]
          simp

theorem hasTriple_app_left (x y : List Char) (h : hasTriple (x ++ y) = false) :
    hasTriple x = false := by
  cases hx : hasTriple x
  · rfl
  · rcases (hasTriple_iff x).mp hx with ⟨a, b, rfl⟩
    have : hasTriple ((a ++ tick :: tick :: tick :: b) ++ y) = true := by
      rw [hasTriple_iff]
      exact ⟨a, b ++ y, by simp⟩
    rw [this] at h
    cases h

theorem hasTriple_cons_down (c : Char) (s : List Char)
    (h : hasTriple (c :: s) = false) : hasTriple s = false := by
  cases hx : hasTriple s
  · rfl
  · rcases (hasTriple_iff s).mp hx with ⟨a, b, rfl⟩
    have : hasTriple (c :: (a ++ tick :: tick :: tick :: b)) = true := by
      rw [hasTriple_iff]
      exact ⟨c :: a, b, by simp⟩
    rw [this] at h
    cases h

theorem getLastNl_decomp (p : List Char) (h : p.getLast? = some '\n') :
    ∃ u, p = u ++ ['\n'] := by
  induction p with
  | nil => simp at h
  | cons c t ih =>
    cases t with
    | nil =>
      simp only [List.getLast?_singleton, Option.some_inj] at h
      exact ⟨[], by simp [h]⟩
    | cons d t2 =>
      rw [List.getLast?_cons_cons] at h
      rcases ih h with ⟨u, hu⟩
      exact ⟨c :: u, by simp [hu]⟩

theorem tryOpen_of_stripTicks_none (s : List Char)
    (h : stripTicks ((skipWs s).2) = none) : tryOpen s = none := by
  simp [tryOpen, h]

theorem stripTicks_some_shape (s r : List Char) (h : stripTicks s = some r) :
    s = tick :: tick :: tick :: r := by
  match s with
  | [] =>
    rw [show stripTicks [] = none from rfl] at h
    cases h
  | [a] =>
    rw [show stripTicks [a] = none from rfl] at h
    cases h
  | [a, b] =>
    rw [show stripTicks [a, b] = none from rfl] at h
    cases h
  | a :: b :: c :: u =>
    rw [stripTicks] at h
    by_cases habc : a = tick ∧ b = tick ∧ c = tick
    · rw [if_pos habc] at h
      cases h
      simp [habc.1, habc.2.1, habc.2.2]
    · rw [if_neg habc] at h
      cases h

theorem tryOpen_noTriple (s : List Char) (h : hasTriple s = false) :
    tryOpen s = none := by
  apply tryOpen_of_stripTicks_none
  cases hx : stripTicks (skipWs s).2
  · rfl
  · exfalso
    rename_i r
    have hshape : (skipWs s).2 = tick :: tick :: tick :: r :=
      stripTicks_some_shape _ r hx
    have : hasTriple s = true := by
      rw [hasTriple_iff]
      refine ⟨(skipWs s).1, r, ?_⟩
      conv_lhs => rw [skipWs_split s]
      rw [hshape]
    rw [this] at h
    cases h

theorem scanB_noTriple (s : List Char) (h : hasTriple s = false) :
    scanB s = none := by
  induction s with
  | nil => rfl
  | cons c cs ih =>
    have hcs : hasTriple cs = false := hasTriple_cons_down c cs h
    rw [scanB]
    by_cases hc : c = '\n'
    · rw [if_pos hc, tryOpen_noTriple cs hcs, ih hcs]
    · rw [if_neg hc, ih hcs]

theorem scanMatch_noTriple (atStart : Bool) (s : List Char)
    (h : hasTriple s = false) : scanMatch atStart s = none := by
  cases atStart
  · simpa [scanMatch] using scanB_noTriple s h
  · simp [scanMatch, tryOpen_noTriple s h, scanB_noTriple s h]

theorem spanLine_append (l r : List Char) (hl : '\n' ∉ l) :
    spanLine (l ++ '\n' :: r) = (l, '\n' :: r) := by
  induction l with
  | nil => simp [spanLine]
  | cons c t ih =>
    have hc : c ≠ '\n' := fun hh => hl (by simp [hh])
    have ht : '\n' ∉ t := fun hh => hl (by simp [hh])
    show spanLine (c :: (t ++ '\n' :: r)) = (c :: t, '\n' :: r)
    rw [spanLine, if_neg hc]
    simp [ih ht]

theorem stripTicks_ticks (t : List Char) :
    stripTicks (tick :: tick :: tick :: t) = some t := by
  rw [stripTicks, if_pos ⟨rfl, rfl, rfl⟩]

/-- After a matched `\n` anchor, a remaining plain part that is neither
empty nor pure whitespace blocks the opening fence check: the greedy `\s*`
stops at its first non-whitespace character, and no triple back-tick can
start there. -/
theorem stripTicks_fail_junction (v X : List Char) (h1 : hasTriple v = false)
    (h3 : v.all isPySpace = false) :
    stripTicks ((skipWs (v ++ '\n' :: X)).2) = none := by
  rcases allWs_decomp v h3 with ⟨w, d, v2, rfl, hw, hd⟩
  have hskip : skipWs ((w ++ d :: v2) ++ '\n' :: X)
      = (w, d :: (v2 ++ '\n' :: X)) := by
    rw [List.append_assoc]
    exact skipWs_append_ws w _ hw (fun x hx => by
      simp only [List.cons_append, List.head?_cons, Option.some_inj] at hx
      rw [← hx]
      exact hd)
  rw [hskip]
  cases v2 with
  | nil =>
    cases X with
    | nil => rfl
    | cons x X2 =>
      show stripTicks (d :: '\n' :: x :: X2) = none
      rw [stripTicks, if_neg]
      intro hc
      exact absurd hc.2.1 (by decide)
  | cons x v3 =>
    cases v3 with
    | nil =>
      show stripTicks (d :: x :: '\n' :: X) = none
      rw [stripTicks, if_neg]
      intro hc
      exact absurd hc.2.2 (by decide)
    | cons y v4 =>
      show stripTicks (d :: x :: y :: (v4 ++ '\n' :: X)) = none
      rw [stripTicks, if_neg]
      intro hc
      have : hasTriple (w ++ d :: x :: y :: v4) = true := by
        rw [hasTriple_iff]
        exact ⟨w, v4, by simp [hc.1, hc.2.1, hc.2.2]⟩
      rw [this] at h1
      cases h1

theorem findClose_append (b t : List Char) (hb : hasTriple b = false) :
    findClose (b ++ '\n' :: tick :: tick :: tick :: t) = some (b ++ ['\n'], t) := by
  induction b with
  | nil =>
    show findClose ('\n' :: tick :: tick :: tick :: t) = some (['\n'], t)
    rw [findClose, if_pos rfl]
    have hskip : skipWs (tick :: tick :: tick :: t) = ([], tick :: tick :: tick :: t) := by
      rw [skipWs, if_neg (by rw [isPySpace_tick]; exact Bool.false_ne_true)]
    simp [hskip, stripTicks_ticks]
  | cons c b2 ih =>
    have hb2 : hasTriple b2 = false := hasTriple_cons_down c b2 hb
    by_cases hc : c = '\n'
    · subst hc
      show findClose ('\n' :: (b2 ++ '\n' :: tick :: tick :: tick :: t))
          = some ('\n' :: b2 ++ ['\n'], t)
      rw [findClose, if_pos rfl]
      by_cases hws : b2.all isPySpace = true
      · have hall : (b2 ++ ['\n']).all isPySpace = true := by
          simp [List.all_append, hws, isPySpace_nl]
        have hskip : skipWs (b2 ++ '\n' :: tick :: tick :: tick :: t)
            = (b2 ++ ['\n'], tick :: tick :: tick :: t) := by
          rw [show b2 ++ '\n' :: tick :: tick :: tick :: t
              = (b2 ++ ['\n']) ++ tick :: tick :: tick :: t by simp]
          exact skipWs_append_ws _ _ hall (fun x hx => by
            simp only [List.head?_cons, Option.some_inj] at hx
            rw [← hx]
            exact isPySpace_tick)
        simp [hskip, stripTicks_ticks]
      · have hfail := stripTicks_fail_junction b2 (tick :: tick :: tick :: t) hb2 (by
          cases hx : b2.all isPySpace
          · rfl
          · exact absurd hx hws)
        simp [hfail, ih hb2]
    · show findClose (c :: (b2 ++ '\n' :: tick :: tick :: tick :: t))
          = some (c :: b2 ++ ['\n'], t)
      rw [findClose, if_neg hc]
      simp [ih hb2]

theorem afterTicks_append (l b t : List Char) (hl : '\n' ∉ l)
    (hb : hasTriple b = false) :
    afterTicks (l ++ '\n' :: (b ++ '\n' :: tick :: tick :: tick :: t))
      = some (l, b ++ ['\n'], t) := by
  rw [afterTicks, spanLine_append l _ hl]
  simp [findClose_append b t hb]

theorem tryOpen_append (u l b t : List Char) (hu : u.all isPySpace = true)
    (hl : '\n' ∉ l) (hb : hasTriple b = false) :
    tryOpen (u ++ tick :: tick :: tick ::
        (l ++ '\n' :: (b ++ '\n' :: tick :: tick :: tick :: t)))
      = some (u, l, b ++ ['\n'], t) := by
  have hskip : skipWs (u ++ tick :: tick :: tick ::
      (l ++ '\n' :: (b ++ '\n' :: tick :: tick :: tick :: t)))
      = (u, tick :: tick :: tick ::
          (l ++ '\n' :: (b ++ '\n' :: tick :: tick :: tick :: t))) :=
    skipWs_append_ws u _ hu (fun x hx => by
      simp only [List.head?_cons, Option.some_inj] at hx
      rw [← hx]
      exact isPySpace_tick)
  rw [tryOpen]
  simp [hskip, stripTicks_ticks, afterTicks_append l b t hl hb]

theorem tryOpen_fail (u X : List Char) (h1 : hasTriple u = false)
    (h2 : u.getLast? = some '\n') (h3 : u.all isPySpace = false) :
    tryOpen (u ++ X) = none := by
  rcases getLastNl_decomp u h2 with ⟨u0, rfl⟩
  apply tryOpen_of_stripTicks_none
  rw [show (u0 ++ ['\n']) ++ X = u0 ++ '\n' :: X by simp]
  exact stripTicks_fail_junction u0 X
    (hasTriple_app_left u0 ['\n'] h1)
    (by
      have hsame : (u0 ++ ['\n']).all isPySpace = u0.all isPySpace := by
        simp [List.all_append, isPySpace_nl]
      rw [hsame] at h3
      exact h3)

theorem scanB_append (p l b t : List Char) (h1 : hasTriple p = false)
    (h2 : p.getLast? = some '\n') (hl : '\n' ∉ l) (hb : hasTriple b = false) :
    scanB (p ++ tick :: tick :: tick ::
        (l ++ '\n' :: (b ++ '\n' :: tick :: tick :: tick :: t)))
      = some (p, l, b ++ ['\n'], t) := by
  induction p with
  | nil => simp at h2
  | cons c p2 ih =>
    cases p2 with
    | nil =>
      simp only [List.getLast?_singleton, Option.some_inj] at h2
      subst h2
      show scanB ('\n' :: (tick :: tick :: tick ::
          (l ++ '\n' :: (b ++ '\n' :: tick :: tick :: tick :: t))))
        = some (['\n'], l, b ++ ['\n'], t)
      rw [scanB, if_pos rfl]
      have hop := tryOpen_append [] l b t rfl hl hb
      rw [List.nil_append] at hop
      rw [hop]
    | cons d p3 =>
      rw [List.getLast?_cons_cons] at h2
      have hp2 : hasTriple (d :: p3) = false := hasTriple_cons_down c _ h1
      by_cases hc : c = '\n'
      · subst hc
        show scanB ('\n' :: ((d :: p3) ++ tick :: tick :: tick ::
            (l ++ '\n' :: (b ++ '\n' :: tick :: tick :: tick :: t))))
          = some ('\n' :: d :: p3, l, b ++ ['\n'], t)
        rw [scanB, if_pos rfl]
        by_cases hws : (d :: p3).all isPySpace = true
        · rw [tryOpen_append (d :: p3) l b t hws hl hb]
        · rw [tryOpen_fail (d :: p3) _ hp2 h2 (by
            cases hx : (d :: p3).all isPySpace
            · rfl
            · exact absurd hx hws)]
          rw [ih hp2 h2]
      · show scanB (c :: ((d :: p3) ++ tick :: tick :: tick ::
            (l ++ '\n' :: (b ++ '\n' :: tick :: tick :: tick :: t))))
          = some (c :: d :: p3, l, b ++ ['\n'], t)
        rw [scanB, if_neg hc]
        rw [ih hp2 h2]

theorem scanMatch_append (atStart : Bool) (p l b t : List Char)
    (h1 : hasTriple p = false)
    (h2 : p.getLast? = some '\n' ∨ (atStart = true ∧ p.all isPySpace = true))
    (hl : '\n' ∉ l) (hb : hasTriple b = false) :
    scanMatch atStart (p ++ tick :: tick :: tick ::
        (l ++ '\n' :: (b ++ '\n' :: tick :: tick :: tick :: t)))
      = some (p, l, b ++ ['\n'], t) := by
  cases atStart with
  | false =>
    rcases h2 with h2 | h2
    · show scanB _ = _
      exact scanB_append p l b t h1 h2 hl hb
    · cases h2.1
  | true =>
    rw [scanMatch, if_pos rfl]
    by_cases hws : p.all isPySpace = true
    · rw [tryOpen_append p l b t hws hl hb]
    · rcases h2 with h2 | h2
      · rw [tryOpen_fail p _ h1 h2 (by
          cases hx : p.all isPySpace
          · rfl
          · exact absurd hx hws)]
        rw [scanB_append p l b t h1 h2 hl hb]
      · exact absurd h2.2 hws

theorem codeSectionsF_assemble (blocks : List (List Char × List Char × List Char))
    (atStart : Bool) (fuel : Nat) (tl : List Char)
    (hwf : wfBlocks atStart blocks = true) (htl : hasTriple tl = false)
    (hfuel : (assemble blocks tl).length < fuel) :
    codeSectionsF fuel atStart (assemble blocks tl)
      = (blocks.map (fun blk => (blk.1, blk.2.1, blk.2.2 ++ ['\n'])), tl) := by
  induction blocks generalizing atStart fuel with
  | nil =>
    rcases fuel with _ | f
    · exact absurd hfuel (by simp)
    · show codeSectionsF (f + 1) atStart tl = ([], tl)
      rw [codeSectionsF, scanMatch_noTriple atStart tl htl]
  | cons blk rest ih =>
    simp only [wfBlocks, wfPlain, Bool.and_eq_true, Bool.not_eq_true',
      Bool.or_eq_true, decide_eq_true_eq] at hwf
    have hp1 : hasTriple blk.1 = false := hwf.1.1.1.1
    have hp2 : blk.1.getLast? = some '\n' ∨ (atStart = true ∧ blk.1.all isPySpace = true) :=
      hwf.1.1.1.2
    have hlng : '\n' ∉ blk.2.1 := hwf.1.1.2
    have hbody : hasTriple blk.2.2 = false := hwf.1.2
    have hrest : wfBlocks false rest = true := hwf.2
    have hshape : assemble (blk :: rest) tl
        = blk.1 ++ tick :: tick :: tick ::
            (blk.2.1 ++ '\n' :: (blk.2.2 ++ '\n' :: tick :: tick :: tick ::
              assemble rest tl)) := by
      simp [assemble, tick3]
    rcases fuel with _ | f
    · exact absurd hfuel (by simp)
    · rw [codeSectionsF, hshape,
        scanMatch_append atStart blk.1 blk.2.1 blk.2.2 (assemble rest tl)
          hp1 hp2 hlng hbody]
      have hlen : (assemble rest tl).length < f := by
        rw [hshape] at hfuel
        simp only [List.length_append, List.length_cons] at hfuel
        omega
      show ((blk.1, blk.2.1, blk.2.2 ++ ['\n']) ::
            (codeSectionsF f false (assemble rest tl)).1,
          (codeSectionsF f false (assemble rest tl)).2)
        = (List.map (fun blk => (blk.1, blk.2.1, blk.2.2 ++ ['\n'])) (blk :: rest), tl)
      rw [ih false f hrest hlen]
      simp

/-- C5: An assistant message containing two or more well-formed fenced code
sections (each opened by a triple back-tick at the start of the text or
after a newline, optionally preceded by whitespace, and closed by a triple
back-tick on its own line) is segmented into exactly those sections, as
distinct non-overlapping code regions in left-to-right order — the
non-greedy body matching never collapses them into one span — and the
renderer emits one code region per section, in order. -/
theorem assistant_fences_render_separately (colors : Colors)
    (hl : List Char → List Char → List Char)
    (blocks : List (List Char × List Char × List Char)) (tl : List Char)
    (hwf : wfBlocks true blocks = true) (htl : hasTriple tl = false)
    (htwo : 2 ≤ blocks.length) :
    codeSections (assemble blocks tl)
        = (blocks.map (fun blk => (blk.1, blk.2.1, blk.2.2 ++ ['\n'])), tl) ∧
      GetContentStrTerm colors hl "assistant" (assemble blocks tl)
        = colors.ROLE_HEADER_COLOR ++ colors.ROLE_HEADER ++ colors.ENDC ++ [' '] ++
          (colors.ASSISTANT_ROLE ++ "assistant".data ++ colors.ENDC ++ ['\n'] ++
            (((blocks.map (fun blk => (blk.1, blk.2.1, blk.2.2 ++ ['\n']))).map
                (renderSection colors hl)).flatten ++
              colors.ASSISTANT_CONTENT ++ keywordSub (kwRepl colors) tl ++
              colors.ENDC ++ ['\n'])) := by
  have hsec : codeSections (assemble blocks tl)
      = (blocks.map (fun blk => (blk.1, blk.2.1, blk.2.2 ++ ['\n'])), tl) :=
    codeSectionsF_assemble blocks true ((assemble blocks tl).length + 1) tl
      hwf htl (by omega)
  refine ⟨hsec, ?_⟩
  rw [GetContentStrTerm]
  rw [if_neg (by decide), if_pos rfl]
  rw [hsec]

theorem assistant_fences_render_separately_witness :
    codeSections (assemble
          [("a\n".data, "py".data, "x".data), ("b\n".data, [], "y".data)] "tail".data)
        = ([("a\n".data, "py".data, "x".data ++ ['\n']),
            ("b\n".data, [], "y".data ++ ['\n'])], "tail".data) ∧
      GetContentStrTerm nocolors (fun _ code => code) "assistant"
          (assemble [("a\n".data, "py".data, "x".data), ("b\n".data, [], "y".data)]
            "tail".data)
        = nocolors.ROLE_HEADER_COLOR ++ nocolors.ROLE_HEADER ++ nocolors.ENDC ++ [' '] ++
          (nocolors.ASSISTANT_ROLE ++ "assistant".data ++ nocolors.ENDC ++ ['\n'] ++
            ((([("a\n".data, "py".data, "x".data ++ ['\n']),
                ("b\n".data, [], "y".data ++ ['\n'])]).map
                (renderSection nocolors (fun _ code => code))).flatten ++
              nocolors.ASSISTANT_CONTENT ++
              keywordSub (kwRepl nocolors) "tail".data ++
              nocolors.ENDC ++ ['\n'])) :=
  assistant_fences_render_separately nocolors (fun _ code => code)
    [("a\n".data, "py".data, "x".data), ("b\n".data, [], "y".data)] "tail".data
    (by decide) (by decide) (by decide)

theorem kwClose_through (t r : List Char) (ht : tick ∉ t) (hn : '\n' ∉ t) :
    kwClose (t ++ tick :: r) = some (t, r) := by
  induction t with
  | nil =>
    show kwClose (tick :: r) = some ([], r)
    rw [kwClose, if_pos rfl]
  | cons c t2 ih =>
    have hc1 : c ≠ tick := fun hh => ht (by simp [hh])
    have hc2 : c ≠ '\n' := fun hh => hn (by simp [hh])
    show kwClose (c :: (t2 ++ tick :: r)) = some (c :: t2, r)
    rw [kwClose, if_neg hc1, if_neg hc2]
    rw [ih (fun hh => ht (by simp [hh])) (fun hh => hn (by simp [hh]))]

theorem kwClose_length (s w r : List Char) (h : kwClose s = some (w, r)) :
    s.length = w.length + 1 + r.length := by
  induction s generalizing w r with
  | nil =>
    rw [kwClose] at h
    cases h
  | cons c cs ih =>
    rw [kwClose] at h
    by_cases hc : c = tick
    · rw [if_pos hc] at h
      cases h
      simp
      omega
    · rw [if_neg hc] at h
      by_cases hn : c = '\n'
      · rw [if_pos hn] at h
        cases h
      · rw [if_neg hn] at h
        rcases hq : kwClose cs with _ | ⟨w2, r2⟩
        · rw [hq] at h
          cases h
        · rw [hq] at h
          cases h
          have := ih w2 r2 hq
          simp [this]
          omega

theorem kwSubF_succ_cons (repl : List Char → List Char) (f : Nat) (c : Char)
    (cs : List Char) :
    kwSubF repl (f + 1) (c :: cs) =
      if c = tick then
        match cs with
        | [] => [c]
        | c1 :: rest =>
          if c1 = '\n' then c :: kwSubF repl f cs
          else
            match kwClose rest with
            | some q => repl (c1 :: q.1) ++ kwSubF repl f q.2
            | none => c :: kwSubF repl f cs
      else c :: kwSubF repl f cs := by
  rw [kwSubF.eq_def]

theorem kwSubF_noTick (repl : List Char → List Char) (fuel : Nat) (s : List Char)
    (h : tick ∉ s) : kwSubF repl fuel s = s := by
  induction fuel generalizing s with
  | zero => rfl
  | succ f ih =>
    cases s with
    | nil => rfl
    | cons c cs =>
      have hc : c ≠ tick := fun hh => h (by simp [hh])
      rw [kwSubF_succ_cons, if_neg hc]
      rw [ih cs (fun hh => h (by simp [hh]))]

theorem kwSubF_walk (repl : List Char → List Char) (p X : List Char) (fuel : Nat)
    (hp : tick ∉ p) (hf : p.length ≤ fuel) :
    kwSubF repl fuel (p ++ X) = p ++ kwSubF repl (fuel - p.length) X := by
  induction p generalizing fuel with
  | nil => simp
  | cons c p2 ih =>
    rcases fuel with _ | f
    · simp at hf
    · have hc : c ≠ tick := fun hh => hp (by simp [hh])
      show kwSubF repl (f + 1) (c :: (p2 ++ X)) = c :: (p2 ++ kwSubF repl _ X)
      rw [kwSubF_succ_cons, if_neg hc]
      have harg : f + 1 - (c :: p2).length = f - p2.length := by
        simp only [List.length_cons]
        omega
      rw [harg]
      rw [ih f (fun hh => hp (by simp [hh])) (by simpa using hf)]

theorem kwSubF_token (repl : List Char → List Char) (f : Nat) (t X : List Char)
    (ht : t ≠ []) (h1 : tick ∉ t) (h2 : '\n' ∉ t) :
    kwSubF repl (f + 1) (tick :: t ++ tick :: X) = repl t ++ kwSubF repl f X := by
  cases t with
  | nil => exact absurd rfl ht
  | cons t0 trest =>
    have ht0a : t0 ≠ '\n' := fun hh => h2 (by simp [hh])
    show kwSubF repl (f + 1) (tick :: t0 :: (trest ++ tick :: X)) = _
    rw [kwSubF_succ_cons, if_pos rfl]
    show (if t0 = '\n' then tick :: kwSubF repl f (t0 :: (trest ++ tick :: X))
        else
          match kwClose (trest ++ tick :: X) with
          | some q => repl (t0 :: q.1) ++ kwSubF repl f q.2
          | none => tick :: kwSubF repl f (t0 :: (trest ++ tick :: X)))
      = repl (t0 :: trest) ++ kwSubF repl f X
    rw [if_neg ht0a]
    rw [kwClose_through trest X (fun hh => h1 (by simp [hh]))
      (fun hh => h2 (by simp [hh]))]

theorem kwSubF_assembleKw (colors : Colors)
    (pairs : List (List Char × List Char)) (tl : List Char) (fuel : Nat)
    (hwf : wfKw pairs = true) (htl : tick ∉ tl)
    (hf : (assembleKw pairs tl).length ≤ fuel) :
    kwSubF (kwRepl colors) fuel (assembleKw pairs tl)
      = (pairs.map (fun pr => pr.1 ++ kwRepl colors pr.2)).flatten ++ tl := by
  induction pairs generalizing fuel with
  | nil =>
    simpa [assembleKw] using kwSubF_noTick (kwRepl colors) fuel tl htl
  | cons pr rest ih =>
    simp only [wfKw, Bool.and_eq_true, decide_eq_true_eq, Bool.not_eq_true'] at hwf
    have hplain : tick ∉ pr.1 := hwf.1.1.1.1
    have hne : pr.2.isEmpty = false := hwf.1.1.1.2
    have ht1 : tick ∉ pr.2 := hwf.1.1.2
    have ht2 : '\n' ∉ pr.2 := hwf.1.2
    have hrest : wfKw rest = true := hwf.2
    have hshape : assembleKw (pr :: rest) tl
        = pr.1 ++ (tick :: pr.2 ++ tick :: assembleKw rest tl) := by
      simp [assembleKw]
    have hlen : (assembleKw (pr :: rest) tl).length
        = pr.1.length + pr.2.length + 2 + (assembleKw rest tl).length := by
      rw [hshape]
      simp
      omega
    rw [hshape]
    rw [kwSubF_walk (kwRepl colors) pr.1 _ fuel hplain (by omega)]
    rcases hfu : fuel - pr.1.length with _ | f
    · exfalso
      rw [hlen] at hf
      omega
    · have hrlen : (assembleKw rest tl).length ≤ f := by
        rw [hlen] at hf
        omega
      have hnil : pr.2 ≠ [] := by
        intro hh
        rw [hh] at hne
        cases hne
      rw [kwSubF_token (kwRepl colors) f pr.2 _ hnil ht1 ht2]
      rw [ih f hrest hrlen]
      simp

/-- C8: In a plain-text assistant span (here: the tail span after the last
fenced section, which is the whole content when there is no fence), every
inline back-tick-quoted token is re-styled: the surrounding back-ticks are
kept literally, exactly the text between them is wrapped in the keyword
highlight color, and the color is reset back to the assistant content
style immediately after the token. -/
theorem assistant_inline_keywords_restyled (colors : Colors)
    (hl : List Char → List Char → List Char)
    (pairs : List (List Char × List Char)) (tl : List Char)
    (hwf : wfKw pairs = true) (htl : tick ∉ tl)
    (hnb : hasTriple (assembleKw pairs tl) = false) :
    keywordSub (kwRepl colors) (assembleKw pairs tl)
        = (pairs.map (fun pr =>
            pr.1 ++ tick :: (colors.ENDC ++ colors.KEYWORD_BEGIN ++ pr.2 ++
              colors.ENDC ++ colors.ASSISTANT_CONTENT ++ [tick]))).flatten ++ tl ∧
      GetContentStrTerm colors hl "assistant" (assembleKw pairs tl)
        = colors.ROLE_HEADER_COLOR ++ colors.ROLE_HEADER ++ colors.ENDC ++ [' '] ++
          (colors.ASSISTANT_ROLE ++ "assistant".data ++ colors.ENDC ++ ['\n'] ++
            (colors.ASSISTANT_CONTENT ++
              ((pairs.map (fun pr =>
                  pr.1 ++ tick :: (colors.ENDC ++ colors.KEYWORD_BEGIN ++ pr.2 ++
                    colors.ENDC ++ colors.ASSISTANT_CONTENT ++ [tick]))).flatten ++ tl) ++
              colors.ENDC ++ ['\n'])) := by
  have hkw : keywordSub (kwRepl colors) (assembleKw pairs tl)
      = (pairs.map (fun pr =>
          pr.1 ++ tick :: (colors.ENDC ++ colors.KEYWORD_BEGIN ++ pr.2 ++
            colors.ENDC ++ colors.ASSISTANT_CONTENT ++ [tick]))).flatten ++ tl := by
    rw [keywordSub]
    rw [kwSubF_assembleKw colors pairs tl _ hwf htl (by omega)]
    simp only [kwRepl]
  refine ⟨hkw, ?_⟩
  have hsec : codeSections (assembleKw pairs tl) = ([], assembleKw pairs tl) := by
    rw [codeSections]
    rw [codeSectionsF, scanMatch_noTriple true _ hnb]
  rw [GetContentStrTerm]
  rw [if_neg (by decide), if_pos rfl]
  rw [hsec]
  simp only [List.map_nil, List.flatten_nil, List.nil_append]
  rw [hkw]

theorem assistant_inline_keywords_restyled_witness :
    keywordSub (kwRepl black_background_colors)
        (assembleKw [("use ".data, "x".data)] " now".data)
        = ([("use ".data, "x".data)].map (fun pr =>
            pr.1 ++ tick :: (black_background_colors.ENDC ++
              black_background_colors.KEYWORD_BEGIN ++ pr.2 ++
              black_background_colors.ENDC ++
              black_background_colors.ASSISTANT_CONTENT ++ [tick]))).flatten ++
          " now".data ∧
      GetContentStrTerm black_background_colors (fun _ code => code) "assistant"
          (assembleKw [("use ".data, "x".data)] " now".data)
        = black_background_colors.ROLE_HEADER_COLOR ++
          black_background_colors.ROLE_HEADER ++ black_background_colors.ENDC ++
          [' '] ++
          (black_background_colors.ASSISTANT_ROLE ++ "assistant".data ++
            black_background_colors.ENDC ++ ['\n'] ++
            (black_background_colors.ASSISTANT_CONTENT ++
              (([("use ".data, "x".data)].map (fun pr =>
                  pr.1 ++ tick :: (black_background_colors.ENDC ++
                    black_background_colors.KEYWORD_BEGIN ++ pr.2 ++
                    black_background_colors.ENDC ++
                    black_background_colors.ASSISTANT_CONTENT ++ [tick]))).flatten ++
                " now".data) ++
              black_background_colors.ENDC ++ ['\n'])) :=
  assistant_inline_keywords_restyled black_background_colors (fun _ code => code)
    [("use ".data, "x".data)] " now".data (by decide) (by decide) (by decide)
